import Mathlib

/-!
Verification of the buffer-static-upload tool (main.go): a shallow embedding of
the file-versioning and idempotent-upload core, with theorems about the
filename versioner, the remote existence oracle, the batch orchestrator, the
manifest formatter and the CLI driver.

External collaborators (the S3 SDK, the filesystem, `filepath.Glob`, the MD5
implementation and the MIME table) are modelled as explicit parameters; the
string and path manipulation of the Go standard library (`filepath.Ext`,
`strings.Replace`, `strings.Split`, `path.Join`, `path.Clean`) is embedded
directly, restricted to the single-byte separators the program uses.
-/

/-! ## String utilities (Go standard library fragments) -/

/-- Splitting a character list at every occurrence of a separator character.
Mirrors Go `strings.Split` for a one-character separator: the empty input
yields the one-element list `[[]]`, exactly as Go returns `[""]`. -/
def splitOnChar (sep : Char) : List Char → List (List Char)
  | [] => [[]]
  | c :: rest =>
    let r := splitOnChar sep rest
    if c = sep then [] :: r
    else
      match r with
      | [] => [[c]]
      | g :: gs => (c :: g) :: gs

/-- Go `strings.Split s sep` for a one-character separator `sep`. -/
def splitString (sep : Char) (s : String) : List String :=
  (splitOnChar sep s.data).map List.asString

/-- Joining a list of strings with a separator, as `strings.Join` does. -/
def joinSep (sep : String) : List String → String
  | [] => ""
  | [x] => x
  | x :: y :: xs => x ++ sep ++ joinSep sep (y :: xs)

/-- First index at which `pat` occurs as a contiguous sublist of `s`
(Go `strings.Index`). -/
def indexOfSubstr (s pat : List Char) : Option Nat :=
  if pat.isPrefixOf s then some 0
  else
    match s with
    | [] => none
    | _ :: rest => (indexOfSubstr rest pat).map (fun i => i + 1)

/-- Go `strings.Replace s old new 1`: replace the first occurrence of `old`
by `new`.  When `old` is empty, Go matches at the beginning of the string,
so the single replacement inserts `new` in front of `s`. -/
def stringsReplaceOnce (s old new : String) : String :=
  if old = "" then new ++ s
  else
    match indexOfSubstr s.data old.data with
    | some i => ⟨s.data.take i⟩ ++ new ++ ⟨s.data.drop (i + old.data.length)⟩
    | none => s

/-- Helper for `filepathExt`: walks the reversed character list, accumulating
the characters seen so far; stops with `[]` at a path separator, and returns
the accumulated suffix (with the dot) at the first dot. -/
def extAuxRev (acc : List Char) : List Char → List Char
  | [] => []
  | c :: rest =>
    if c = '/' then []
    else if c = '.' then '.' :: acc
    else extAuxRev (c :: acc) rest

/-- Go `filepath.Ext`: the suffix beginning at the final dot in the final
slash-separated element of the path; empty when there is no dot. -/
def filepathExt (path : String) : String :=
  ⟨extAuxRev [] path.data.reverse⟩

/-! ## Go `path.Clean` and `path.Join` -/

/-- Go `path.Clean`: lexical simplification of a slash-separated path
(drops empty and `.` elements, resolves `..`). -/
def pathClean (p : String) : String :=
  if p = "" then "."
  else
    let rooted := match p.data with | '/' :: _ => true | _ => false
    let comps := (splitString '/' p).filter (fun c => c ≠ "" ∧ c ≠ ".")
    let stack := comps.foldl
      (fun st c =>
        if c = ".." then
          match st with
          | [] => if rooted then [] else [".."]
          | top :: rest => if top = ".." then c :: top :: rest else rest
        else c :: st) []
    let body := joinSep "/" stack.reverse
    if rooted then "/" ++ body
    else if body = "" then "." else body

/-- Go `path.Join`: drops leading empty elements, joins the rest with a
slash, and cleans the result; all-empty input yields the empty string. -/
def pathJoin (elems : List String) : String :=
  if elems.all (fun e => e = "") then ""
  else
    let buf := elems.foldl
      (fun buf e => if buf ≠ "" ∨ e ≠ "" then (if buf ≠ "" then buf ++ "/" else buf) ++ e else buf)
      ""
    pathClean buf

/-! ## The filename versioner and URL resolver (main.go) -/

/-- Model of `GetVersionedFilename` from main.go: computes the extension with
`filepath.Ext` and replaces its first occurrence in the filename by
`"." ++ version ++ ext` (Go `strings.Replace` with count 1). -/
def GetVersionedFilename (filename version : String) : String :=
  let ext := filepathExt filename
  let versionedExt := "." ++ version ++ ext
  stringsReplaceOnce filename ext versionedExt

/-- Model of `GetFileMimeType` from main.go: looks the extension up in the MIME
table (`mime.TypeByExtension`), which is passed in as `mimeTable`. -/
def GetFileMimeType (mimeTable : String → String) (filename : String) : String :=
  mimeTable (filepathExt filename)

/-- The default bucket `static.buffer.com` of main.go. -/
def defaultS3Bucket : String := "static.buffer.com"

/-- Model of `GetFileURL` from main.go: the aliased default bucket is used as the
host directly; any other bucket goes through the generic endpoint. -/
def GetFileURL (bucket bucketFilename : String) : String :=
  if bucket = defaultS3Bucket then
    "https://" ++ pathJoin [bucket, bucketFilename]
  else
    "https://s3.amazonaws.com" ++ pathJoin ["/", bucket, "/", bucketFilename]

/-! ## Filesystem, handles and hashing -/

/-- Byte sequences (file contents, upload bodies). -/
abbrev Bytes := List Nat

/-- The local filesystem: a partial map from filename to byte content.
`none` means `os.Open` fails for that name. File-read errors after a
successful open are not modelled. -/
structure GoFS where
  contents : String → Option Bytes

/-- An open file handle: the name of the file and the current read
position.  An `os.File` is an `io.Reader`: every read starts at the
current offset and advances it. -/
structure Handle where
  name : String
  pos : Nat
deriving DecidableEq

/-- Model of `os.Open`: a fresh handle at offset 0, or an error when the file is
missing. -/
def osOpen (fs : GoFS) (filename : String) : Except String Handle :=
  match fs.contents filename with
  | some _ => Except.ok { name := filename, pos := 0 }
  | none => Except.error ("open " ++ filename ++ ": no such file or directory")

/-- Reading a handle to end of file: returns the bytes from the current
offset onwards and the handle advanced to the end. -/
def readToEnd (fs : GoFS) (h : Handle) : Bytes × Handle :=
  match fs.contents h.name with
  | some bs => (bs.drop h.pos, { h with pos := bs.length })
  | none => ([], h)

/-- Model of `GetFileMd5` from main.go: `io.Copy(hash, file)` consumes the handle
from its current offset to end of file and hashes exactly those bytes.
The MD5 implementation itself (`crypto/md5`) is external and passed in as
`md5hex`.  The handle is left at end of file. -/
def GetFileMd5 (md5hex : Bytes → String) (fs : GoFS) (file : Handle) : String × Handle :=
  let r := readToEnd fs file
  (md5hex r.1, r.2)

/-! ## The remote store -/

/-- The remote object store, observed through the two requests main.go
issues: `headErr bucket key` is the error of a HEAD request (`none` means
the request succeeded, i.e. the object exists), and `putErr bucket key`
is the error of an upload to that key (`none` means the transfer
succeeds). -/
structure Remote where
  headErr : String → String → Option String
  putErr : String → String → Option String

/-- Model of `HasPreviousUpload` from main.go: sends a HEAD request and returns
`true` exactly when it succeeded; every error becomes `false`. -/
def HasPreviousUpload (remote : Remote) (bucket filename : String) : Bool :=
  match remote.headErr bucket filename with
  | none => true
  | some _ => false

/-- One transfer to the remote store as main.go performs it: bucket, key,
body bytes and content type.  (The fixed cache-control and expiry
metadata carry no information and are omitted.) -/
structure UploadRecord where
  bucket : String
  key : String
  body : Bytes
  contentType : String
deriving DecidableEq

/-- The environment of external collaborators: the filesystem, the MD5
hex digest function and the MIME table. -/
structure Env where
  fs : GoFS
  md5 : Bytes → String
  mime : String → String

/-- Model of `UploadFile` from main.go: infers the MIME type from the key, and
hands the open handle to the SDK uploader as the request body.  The SDK
consumes the body reader from its current offset (`aws.SeekerLen`
computes the remaining length from the current seek position), so the
transferred bytes are exactly the bytes from the handle's current
position to end of file.  Returns the transfer performed and the error
of the put request. -/
def UploadFile (env : Env) (remote : Remote) (file : Handle) (filename bucket : String) :
    UploadRecord × Option String :=
  let mimeType := GetFileMimeType env.mime filename
  let body := (readToEnd env.fs file).1
  ({ bucket := bucket, key := filename, body := body, contentType := mimeType },
   remote.putErr bucket filename)

/-! ## The manifest map (a Go `map[string]string`) -/

/-- Assignment `m[k] = v` on an association list: overwrite the existing
entry for `k`, or append a new one. -/
def mapInsert : List (String × String) → String → String → List (String × String)
  | [], k, v => [(k, v)]
  | p :: rest, k, v => if p.1 = k then (k, v) :: rest else p :: mapInsert rest k v

/-- Lookup in an association list. -/
def lookupKey : List (String × String) → String → Option String
  | [], _ => none
  | p :: rest, k => if p.1 = k then some p.2 else lookupKey rest k

/-- Key membership in an association list. -/
def containsKey : List (String × String) → String → Bool
  | [], _ => false
  | p :: rest, k => if p.1 = k then true else containsKey rest k

/-! ## The batch orchestrator (`VersionAndUploadFiles`) -/

/-- Per-file outcome as printed by main.go. -/
inductive Outcome where
  | Uploaded
  | Skipped
deriving DecidableEq

/-- The observable result of a run of the orchestrator: the manifest map
(`fileVersions` in main.go), the transfers handed to the SDK, the HEAD
requests issued, the printed per-file outcome lines, and the error
returned (if any). -/
structure RunResult where
  fileVersions : List (String × String)
  uploads : List UploadRecord
  headChecks : List (String × String)
  outcomes : List (String × Outcome)
  err : Option String
deriving DecidableEq

/-- The empty accumulator at the start of a run. -/
def initRun : RunResult :=
  { fileVersions := [], uploads := [], headChecks := [], outcomes := [], err := none }

/-- One iteration of the loop of `VersionAndUploadFiles` in main.go:
open the file; for a `.js`/`.css` extension compute the checksum (which
consumes the handle) and version the filename; join with the directory;
resolve the URL; issue the HEAD request; upload unless the key exists or
the run is dry; print the outcome and record the manifest entry.  Any
error returns immediately with the accumulated map. -/
def processFile (env : Env) (remote : Remote) (bucket directory : String) (dryRun : Bool)
    (acc : RunResult) (filename : String) : RunResult :=
  match osOpen env.fs filename with
  | Except.error e => { acc with err := some e }
  | Except.ok file =>
    let ext := filepathExt filename
    let fingerprinted :=
      if ext = ".js" ∨ ext = ".css" then
        let cf := GetFileMd5 env.md5 env.fs file
        (GetVersionedFilename filename cf.1, cf.2)
      else (filename, file)
    let uploadFilename := fingerprinted.1
    let file1 := fingerprinted.2
    let bucketFilename := pathJoin [directory, uploadFilename]
    let fileURL := GetFileURL bucket bucketFilename
    let shouldUpload := ! HasPreviousUpload remote bucket bucketFilename
    let acc1 := { acc with headChecks := acc.headChecks ++ [(bucket, bucketFilename)] }
    let attempted :=
      if shouldUpload && ! dryRun then
        let u := UploadFile env remote file1 bucketFilename bucket
        ({ acc1 with uploads := acc1.uploads ++ [u.1] }, u.2)
      else (acc1, none)
    match attempted.2 with
    | some e => { attempted.1 with err := some e }
    | none =>
      { attempted.1 with
        outcomes := attempted.1.outcomes ++
          [(filename, if shouldUpload then Outcome.Uploaded else Outcome.Skipped)],
        fileVersions := mapInsert attempted.1.fileVersions filename fileURL }

/-- One step of the fold: once an error has been recorded the remaining
files are not processed (main.go returns from inside the loop). -/
def runStep (env : Env) (remote : Remote) (bucket directory : String) (dryRun : Bool)
    (acc : RunResult) (filename : String) : RunResult :=
  if acc.err.isSome then acc else processFile env remote bucket directory dryRun acc filename

/-- Model of `VersionAndUploadFiles` from main.go, as a fold over the file list. -/
def VersionAndUploadFiles (env : Env) (remote : Remote) (bucket directory : String)
    (filenames : List String) (dryRun : Bool) : RunResult :=
  filenames.foldl (runStep env remote bucket directory dryRun) initRun

/-! ## Derived per-file quantities (used to state theorems) -/

/-- The key under which a file is uploaded, before the directory is
joined: the versioned filename for `.js`/`.css`, the plain filename
otherwise. -/
def uploadKeyOf (env : Env) (filename : String) : String :=
  match env.fs.contents filename with
  | some bs =>
    if filepathExt filename = ".js" ∨ filepathExt filename = ".css" then
      GetVersionedFilename filename (env.md5 bs)
    else filename
  | none => filename

/-- The full remote object key of a file: directory prefix joined with
the upload key. -/
def bucketKeyOf (env : Env) (directory filename : String) : String :=
  pathJoin [directory, uploadKeyOf env filename]

/-- The public URL recorded in the manifest for a file. -/
def urlOf (env : Env) (bucket directory filename : String) : String :=
  GetFileURL bucket (bucketKeyOf env directory filename)

/-- The bytes actually handed to the SDK for a file: for a versionable
file the handle has already been consumed by the fingerprinter, so the
remaining bytes are `bs.drop bs.length`; otherwise the full content. -/
def transferredBody (env : Env) (filename : String) : Bytes :=
  match env.fs.contents filename with
  | some bs =>
    if filepathExt filename = ".js" ∨ filepathExt filename = ".css" then bs.drop bs.length
    else bs
  | none => []

/-- The transfer main.go performs for a file that gets uploaded. -/
def uploadRecordOf (env : Env) (bucket directory filename : String) : UploadRecord :=
  { bucket := bucket
    key := bucketKeyOf env directory filename
    body := transferredBody env filename
    contentType := GetFileMimeType env.mime (bucketKeyOf env directory filename) }

/-- The manifest map produced by a successful run, as a pure fold. -/
def pureManifest (env : Env) (bucket directory : String) (filenames : List String)
    (m0 : List (String × String)) : List (String × String) :=
  filenames.foldl (fun m f => mapInsert m f (urlOf env bucket directory f)) m0

/-! ## The manifest formatter (`FormatManifest`) -/

/-- A hexadecimal digit. -/
def hexDigit (n : Nat) : Char :=
  if n < 10 then Char.ofNat (48 + n) else Char.ofNat (87 + n)

/-- Two lowercase hex digits of a byte. -/
def hexByte (n : Nat) : String :=
  ⟨[hexDigit (n / 16 % 16), hexDigit (n % 16)]⟩

/-- Model of the string escaping of Go `encoding/json` (HTML escaping on,
as `json.Marshal` defaults to) for the ASCII range. -/
def jsonEscapeChar (c : Char) : String :=
  if c = '"' then "\\\""
  else if c = '\\' then "\\\\"
  else if c = '\n' then "\\n"
  else if c = '\r' then "\\r"
  else if c = '\t' then "\\t"
  else if c = '<' then "\\u003c"
  else if c = '>' then "\\u003e"
  else if c = '&' then "\\u0026"
  else if c.toNat < 32 then "\\u00" ++ hexByte c.toNat
  else ⟨[c]⟩

/-- A JSON string literal. -/
def jsonString (s : String) : String :=
  "\"" ++ joinSep "" (s.data.map jsonEscapeChar) ++ "\""

/-- Insertion into a key-sorted association list (Go marshals maps with
sorted keys). -/
def insertByKey (p : String × String) : List (String × String) → List (String × String)
  | [] => [p]
  | q :: rest => if q.1 < p.1 then q :: insertByKey p rest else p :: q :: rest

/-- Sorting an association list by key. -/
def sortByKey : List (String × String) → List (String × String)
  | [] => []
  | p :: rest => insertByKey p (sortByKey rest)

/-- Model of `json.MarshalIndent(fileVersions, "", "  ")` on a
`map[string]string`: an object with sorted keys, two-space indentation,
`\x7b\x7d` for the empty map. -/
def jsonMarshalIndent (m : List (String × String)) : String :=
  match sortByKey m with
  | [] => "\x7b\x7d"
  | sorted =>
    "\x7b\n" ++
      joinSep ",\n" (sorted.map (fun p => "  " ++ jsonString p.1 ++ ": " ++ jsonString p.2)) ++
      "\n\x7d"

/-- Model of Go `encoding/csv` field quoting: a field is quoted when it
contains the delimiter, a quote or a line break, when its first character
is white space, or when it is the literal backslash-dot. -/
def csvFieldNeedsQuotes (f : String) : Bool :=
  if f = "" then false
  else if f = "\\." then true
  else if f.data.any (fun c => c = ',' ∨ c = '"' ∨ c = '\r' ∨ c = '\n') then true
  else
    match f.data with
    | c :: _ => c.isWhitespace
    | [] => false

/-- A CSV field, quoted when needed, with quotes doubled. -/
def csvField (f : String) : String :=
  if csvFieldNeedsQuotes f then
    "\"" ++ joinSep "" (f.data.map (fun c => if c = '"' then "\"\"" else ⟨[c]⟩)) ++ "\""
  else f

/-- Model of the CSV branch of `FormatManifest`: one row per entry, two
fields, newline-terminated, no header.  (Go iterates the map in
unspecified order; the model uses the list order.) -/
def csvEncode (m : List (String × String)) : String :=
  joinSep "" (m.map (fun p => csvField p.1 ++ "," ++ csvField p.2 ++ "\n"))

/-- Model of `FormatManifest` from main.go: returns (bytes, error) Go-style.
`"json"` and `"csv"` produce output with no error; any other selector
falls through to `(nil, nil)`. -/
def FormatManifest (fileVersions : List (String × String)) (format : String) :
    Option String × Option String :=
  if format = "json" then (some (jsonMarshalIndent fileVersions), none)
  else if format = "csv" then (some (csvEncode fileVersions), none)
  else (none, none)

/-! ## Glob expansion (`GetFilesFromGlobsList`) -/

/-- Model of `GetFilesFromGlobsList` from main.go: splits the comma-delimited
pattern list and concatenates the matches of each pattern; the first
glob error stops the loop and is returned with the files found so far.
`filepath.Glob` itself is external and passed in as `globFn`. -/
def GetFilesFromGlobsList (globFn : String → Except String (List String))
    (globList : String) : List String × Option String :=
  (splitString ',' globList).foldl
    (fun acc glob =>
      match acc.2 with
      | some _ => acc
      | none =>
        match globFn glob with
        | Except.error e => (acc.1, some e)
        | Except.ok fileList => (acc.1 ++ fileList, none))
    ([], none)

/-! ## The CLI driver (`main`) -/

/-- The parsed command-line flags of main.go (the `-v` version flag,
which exits before any of the modelled logic, is omitted). -/
structure MainArgs where
  s3Bucket : String
  directory : String
  filesArg : String
  outputFilename : String
  format : String
  dryRun : Bool
deriving DecidableEq

/-- The observable result of `main` after flag parsing: the fatal error
(if the process exited non-zero), the orchestrator result (when it ran)
and the manifest file write performed (filename and contents). -/
structure MainResult where
  fatalError : Option String
  run : Option RunResult
  manifestWrite : Option (String × String)
deriving DecidableEq

/-- The tail of `main` after the orchestrator has run: abort on an upload
error, format the manifest, and write it to the output file unless the
run is dry (Go writes a nil byte slice as an empty file). -/
def mainFinish (format outputFilename : String) (dryRun : Bool) (res : RunResult) :
    MainResult :=
  match res.err with
  | some e =>
    { fatalError := some ("failed to upload files " ++ e), run := none, manifestWrite := none }
  | none =>
    match FormatManifest res.fileVersions format with
    | (_, some e) =>
      { fatalError := some ("failed to format versions manifest file " ++ e),
        run := some res, manifestWrite := none }
    | (output, none) =>
      if dryRun then
        { fatalError := none, run := some res, manifestWrite := none }
      else
        { fatalError := none, run := some res,
          manifestWrite := some (outputFilename, output.getD "") }

/-- The body of `main` after the configuration check: expand the globs,
run the orchestrator, and finish with `mainFinish`.  Credential setup is
external and not modelled. -/
def mainRunBody (env : Env) (remote : Remote)
    (globFn : String → Except String (List String)) (args : MainArgs) : MainResult :=
  match GetFilesFromGlobsList globFn args.filesArg with
  | (_, some e) =>
    { fatalError := some ("failed to get files " ++ e), run := none, manifestWrite := none }
  | (files, none) =>
    mainFinish args.format args.outputFilename args.dryRun
      (VersionAndUploadFiles env remote args.s3Bucket args.directory files args.dryRun)

/-- Model of `main` from main.go after flag parsing: an empty directory together
with the default bucket is a fatal configuration error; otherwise the
body runs. -/
def mainRun (env : Env) (remote : Remote)
    (globFn : String → Except String (List String)) (args : MainArgs) : MainResult :=
  if args.directory = "" ∧ args.s3Bucket = defaultS3Bucket then
    { fatalError := some "To use the default bucket you need to specify an upload directory (-dir)",
      run := none, manifestWrite := none }
  else mainRunBody env remote globFn args

/-! ## Concrete instances used by the witnesses and counterexamples -/

/-- A small filesystem: one versionable and one non-versionable file. -/
def fsW : GoFS :=
  ⟨fun f =>
    if f = "app.js" then some [1, 2, 3]
    else if f = "logo.png" then some [7, 8]
    else none⟩

/-- A concrete environment over `fsW` with a constant digest function and
a one-entry MIME table. -/
def envW : Env :=
  { fs := fsW
    md5 := fun _ => "aabb"
    mime := fun e => if e = ".js" then "application/javascript" else "" }

/-- A remote on which every HEAD request fails (nothing exists) and every
put succeeds. -/
def remoteNoneExists : Remote :=
  { headErr := fun _ _ => some "NotFound", putErr := fun _ _ => none }

/-- A remote on which every HEAD request succeeds (every key exists). -/
def remoteAllExist : Remote :=
  { headErr := fun _ _ => none, putErr := fun _ _ => none }

/-- A glob function under which the empty pattern matches nothing (as
Go's `filepath.Glob` does: the empty pattern has no meta characters and
`Lstat` of the empty path fails, which is not an error) and every other
pattern matches itself. -/
def globFnW : String → Except String (List String) :=
  fun p => if p = "" then Except.ok [] else Except.ok [p]

theorem data_append (a b : String) : (a ++ b).data = a.data ++ b.data := rfl

theorem processFile_some (env : Env) (remote : Remote) (b d : String) (dry : Bool)
    (acc : RunResult) (f : String) (bs : Bytes) (h : env.fs.contents f = some bs) :
    processFile env remote b d dry acc f =
      if (! HasPreviousUpload remote b (bucketKeyOf env d f)) && ! dry then
        match remote.putErr b (bucketKeyOf env d f) with
        | some e =>
          { acc with
            headChecks := acc.headChecks ++ [(b, bucketKeyOf env d f)],
            uploads := acc.uploads ++ [uploadRecordOf env b d f],
            err := some e }
        | none =>
          { acc with
            headChecks := acc.headChecks ++ [(b, bucketKeyOf env d f)],
            uploads := acc.uploads ++ [uploadRecordOf env b d f],
            outcomes := acc.outcomes ++ [(f, Outcome.Uploaded)],
            fileVersions := mapInsert acc.fileVersions f (urlOf env b d f) }
      else
        { acc with
          headChecks := acc.headChecks ++ [(b, bucketKeyOf env d f)],
          outcomes := acc.outcomes ++
            [(f, if ! HasPreviousUpload remote b (bucketKeyOf env d f) then Outcome.Uploaded
                 else Outcome.Skipped)],
          fileVersions := mapInsert acc.fileVersions f (urlOf env b d f) } := by
  by_cases hv : filepathExt f = ".js" ∨ filepathExt f = ".css"
  · simp only [processFile, osOpen, h, GetFileMd5, readToEnd, if_pos hv, List.drop_zero,
      bucketKeyOf, uploadKeyOf, urlOf, uploadRecordOf, transferredBody, UploadFile,
      GetFileMimeType]
    cases hsu : HasPreviousUpload remote b (pathJoin [d, GetVersionedFilename f (env.md5 bs)]) <;>
      cases dry <;>
        cases hput : remote.putErr b (pathJoin [d, GetVersionedFilename f (env.md5 bs)]) <;>
          simp
  · simp only [processFile, osOpen, h, GetFileMd5, readToEnd, if_neg hv, List.drop_zero,
      bucketKeyOf, uploadKeyOf, urlOf, uploadRecordOf, transferredBody, UploadFile,
      GetFileMimeType]
    cases hsu : HasPreviousUpload remote b (pathJoin [d, f]) <;>
      cases dry <;>
        cases hput : remote.putErr b (pathJoin [d, f]) <;>
          simp

theorem processFile_none (env : Env) (remote : Remote) (b d : String) (dry : Bool)
    (acc : RunResult) (f : String) (h : env.fs.contents f = none) :
    processFile env remote b d dry acc f =
      { acc with err := some ("open " ++ f ++ ": no such file or directory") } := by
  simp [processFile, osOpen, h]

theorem processFile_err_none (env : Env) (remote : Remote) (b d : String) (dry : Bool)
    (acc : RunResult) (f : String)
    (h : (processFile env remote b d dry acc f).err = none) :
    acc.err = none ∧ ∃ bs, env.fs.contents f = some bs := by
  cases hc : env.fs.contents f with
  | none =>
    rw [processFile_none env remote b d dry acc f hc] at h
    simp at h
  | some bs =>
    rw [processFile_some env remote b d dry acc f bs hc] at h
    refine ⟨?_, bs, rfl⟩
    split at h
    · split at h
      · simp at h
      · simpa using h
    · simpa using h

theorem processFile_success_char (env : Env) (remote : Remote) (b d : String) (dry : Bool)
    (acc : RunResult) (f : String) (bs : Bytes)
    (hbs : env.fs.contents f = some bs)
    (h : (processFile env remote b d dry acc f).err = none) :
    processFile env remote b d dry acc f =
      { acc with
        headChecks := acc.headChecks ++ [(b, bucketKeyOf env d f)],
        uploads := acc.uploads ++
          (if (! HasPreviousUpload remote b (bucketKeyOf env d f)) && ! dry
           then [uploadRecordOf env b d f] else []),
        outcomes := acc.outcomes ++
          [(f, if ! HasPreviousUpload remote b (bucketKeyOf env d f) then Outcome.Uploaded
               else Outcome.Skipped)],
        fileVersions := mapInsert acc.fileVersions f (urlOf env b d f) } := by
  rw [processFile_some env remote b d dry acc f bs hbs] at h ⊢
  split at h
  · rename_i hcond
    split at h
    · simp at h
    · rename_i heq
      have h1 : (! HasPreviousUpload remote b (bucketKeyOf env d f)) = true :=
        ((Bool.and_eq_true _ _).mp hcond).1
      have h2 : dry = false := by
        simpa using ((Bool.and_eq_true _ _).mp hcond).2
      simp [hcond, heq, h1, h2]
  · rename_i hcond
    simp [hcond]

theorem processFile_skip (env : Env) (remote : Remote) (b d : String) (dry : Bool)
    (acc : RunResult) (f : String) (bs : Bytes)
    (hbs : env.fs.contents f = some bs)
    (hhead : remote.headErr b (bucketKeyOf env d f) = none) :
    processFile env remote b d dry acc f =
      { acc with
        headChecks := acc.headChecks ++ [(b, bucketKeyOf env d f)],
        outcomes := acc.outcomes ++ [(f, Outcome.Skipped)],
        fileVersions := mapInsert acc.fileVersions f (urlOf env b d f) } := by
  have hsu : HasPreviousUpload remote b (bucketKeyOf env d f) = true := by
    simp [HasPreviousUpload, hhead]
  rw [processFile_some env remote b d dry acc f bs hbs]
  simp [hsu]

theorem processFile_dry_uploads (env : Env) (remote : Remote) (b d : String)
    (acc : RunResult) (f : String) :
    (processFile env remote b d true acc f).uploads = acc.uploads := by
  cases hc : env.fs.contents f with
  | none => rw [processFile_none env remote b d true acc f hc]
  | some bs =>
    rw [processFile_some env remote b d true acc f bs hc]
    simp

theorem runFold_error_stick (env : Env) (remote : Remote) (b d : String) (dry : Bool) :
    ∀ (files : List String) (acc : RunResult), acc.err.isSome = true →
      files.foldl (runStep env remote b d dry) acc = acc := by
  intro files
  induction files with
  | nil => intro acc _; rfl
  | cons g gs ih =>
    intro acc h
    rw [List.foldl_cons]
    have : runStep env remote b d dry acc g = acc := by
      simp [runStep, h]
    rw [this]
    exact ih acc h

theorem runFold_err_none (env : Env) (remote : Remote) (b d : String) (dry : Bool)
    (files : List String) (acc : RunResult)
    (h : (files.foldl (runStep env remote b d dry) acc).err = none) : acc.err = none := by
  cases hacc : acc.err with
  | none => rfl
  | some e =>
    rw [runFold_error_stick env remote b d dry files acc (by simp [hacc])] at h
    rw [hacc] at h
    exact absurd h (by simp)

theorem runFold_cons_success (env : Env) (remote : Remote) (b d : String) (dry : Bool)
    (g : String) (gs : List String) (acc : RunResult)
    (h : ((g :: gs).foldl (runStep env remote b d dry) acc).err = none) :
    acc.err = none
      ∧ (∃ bs, env.fs.contents g = some bs)
      ∧ (g :: gs).foldl (runStep env remote b d dry) acc
          = gs.foldl (runStep env remote b d dry) (processFile env remote b d dry acc g)
      ∧ (processFile env remote b d dry acc g).err = none := by
  rw [List.foldl_cons] at h
  have hstep : (runStep env remote b d dry acc g).err = none :=
    runFold_err_none env remote b d dry gs _ h
  have hacc : acc.err = none := by
    cases hacc : acc.err with
    | none => rfl
    | some e =>
      have : runStep env remote b d dry acc g = acc := by simp [runStep, hacc]
      rw [this, hacc] at hstep
      exact absurd hstep (by simp)
  have hrs : runStep env remote b d dry acc g = processFile env remote b d dry acc g := by
    simp [runStep, hacc]
  rw [hrs] at hstep
  refine ⟨hacc, (processFile_err_none env remote b d dry acc g hstep).2, ?_, hstep⟩
  rw [List.foldl_cons, hrs]

theorem runFold_openable (env : Env) (remote : Remote) (b d : String) (dry : Bool) :
    ∀ (files : List String) (acc : RunResult),
      (files.foldl (runStep env remote b d dry) acc).err = none →
      ∀ f ∈ files, ∃ bs, env.fs.contents f = some bs := by
  intro files
  induction files with
  | nil => intro acc _ f hf; exact absurd hf (by simp)
  | cons g gs ih =>
    intro acc h f hf
    obtain ⟨hacc, hbs, heq, hpf⟩ := runFold_cons_success env remote b d dry g gs acc h
    rcases List.mem_cons.mp hf with rfl | hf'
    · exact hbs
    · rw [heq] at h
      exact ih _ h f hf'

theorem runFold_fileVersions (env : Env) (remote : Remote) (b d : String) (dry : Bool) :
    ∀ (files : List String) (acc : RunResult),
      (files.foldl (runStep env remote b d dry) acc).err = none →
      (files.foldl (runStep env remote b d dry) acc).fileVersions
        = pureManifest env b d files acc.fileVersions := by
  intro files
  induction files with
  | nil => intro acc _; rfl
  | cons g gs ih =>
    intro acc h
    obtain ⟨hacc, ⟨bs, hbs⟩, heq, hpf⟩ := runFold_cons_success env remote b d dry g gs acc h
    rw [heq] at h ⊢
    rw [ih _ h]
    have hchar := processFile_success_char env remote b d dry acc g bs hbs hpf
    simp only [pureManifest]
    rw [List.foldl_cons, hchar]

theorem runFold_checks (env : Env) (remote : Remote) (b d : String) (dry : Bool) :
    ∀ (files : List String) (acc : RunResult),
      (files.foldl (runStep env remote b d dry) acc).err = none →
      (files.foldl (runStep env remote b d dry) acc).headChecks
          = acc.headChecks ++ files.map (fun f => (b, bucketKeyOf env d f))
        ∧ (files.foldl (runStep env remote b d dry) acc).outcomes.map Prod.fst
          = acc.outcomes.map Prod.fst ++ files := by
  intro files
  induction files with
  | nil => intro acc _; simp
  | cons g gs ih =>
    intro acc h
    obtain ⟨hacc, ⟨bs, hbs⟩, heq, hpf⟩ := runFold_cons_success env remote b d dry g gs acc h
    rw [heq] at h ⊢
    obtain ⟨ih1, ih2⟩ := ih _ h
    have hchar := processFile_success_char env remote b d dry acc g bs hbs hpf
    rw [ih1, ih2, hchar]
    simp

theorem runFold_allexist (env : Env) (remoteA : Remote) (b d : String) (dry : Bool)
    (hall : ∀ k, remoteA.headErr b k = none) :
    ∀ (files : List String) (acc : RunResult), acc.err = none →
      (∀ f ∈ files, ∃ bs, env.fs.contents f = some bs) →
      (files.foldl (runStep env remoteA b d dry) acc).err = none
        ∧ (files.foldl (runStep env remoteA b d dry) acc).uploads = acc.uploads
        ∧ (files.foldl (runStep env remoteA b d dry) acc).outcomes
            = acc.outcomes ++ files.map (fun f => (f, Outcome.Skipped)) := by
  intro files
  induction files with
  | nil => intro acc hacc _; exact ⟨hacc, rfl, by simp⟩
  | cons g gs ih =>
    intro acc hacc hopen
    obtain ⟨bs, hbs⟩ := hopen g (by simp)
    have hskip := processFile_skip env remoteA b d dry acc g bs hbs (hall _)
    have hrs : runStep env remoteA b d dry acc g = processFile env remoteA b d dry acc g := by
      simp [runStep, hacc]
    rw [List.foldl_cons, hrs, hskip]
    have hopen' : ∀ f ∈ gs, ∃ bs, env.fs.contents f = some bs := by
      intro f hf; exact hopen f (by simp [hf])
    have herr2 : ({ acc with
        headChecks := acc.headChecks ++ [(b, bucketKeyOf env d g)],
        outcomes := acc.outcomes ++ [(g, Outcome.Skipped)],
        fileVersions := mapInsert acc.fileVersions g (urlOf env b d g) } : RunResult).err
          = none := hacc
    obtain ⟨e1, u1, o1⟩ := ih _ herr2 hopen'
    refine ⟨e1, by rw [u1], ?_⟩
    rw [o1]
    simp

theorem runFold_dry_uploads (env : Env) (remote : Remote) (b d : String) :
    ∀ (files : List String) (acc : RunResult),
      (files.foldl (runStep env remote b d true) acc).uploads = acc.uploads := by
  intro files
  induction files with
  | nil => intro acc; rfl
  | cons g gs ih =>
    intro acc
    rw [List.foldl_cons]
    by_cases hacc : acc.err.isSome = true
    · have : runStep env remote b d true acc g = acc := by simp [runStep, hacc]
      rw [this]
      exact ih acc
    · have hrs : runStep env remote b d true acc g = processFile env remote b d true acc g := by
        simp [runStep, hacc]
      rw [hrs]
      rw [ih _]
      exact processFile_dry_uploads env remote b d acc g

theorem lookupKey_mapInsert_self (m : List (String × String)) (k v : String) :
    lookupKey (mapInsert m k v) k = some v := by
  induction m with
  | nil => simp [mapInsert, lookupKey]
  | cons p rest ih =>
    by_cases h : p.1 = k
    · simp [mapInsert, h, lookupKey]
    · simp [mapInsert, h, lookupKey, ih]

theorem lookupKey_mapInsert_other (m : List (String × String)) (k v k' : String)
    (h : k' ≠ k) :
    lookupKey (mapInsert m k v) k' = lookupKey m k' := by
  induction m with
  | nil => simp [mapInsert, lookupKey, Ne.symm h]
  | cons p rest ih =>
    by_cases hp : p.1 = k
    · subst hp
      simp [mapInsert, lookupKey, Ne.symm h]
    · simp only [mapInsert, if_neg hp, lookupKey]
      by_cases hp' : p.1 = k'
      · simp [hp']
      · simp [hp', ih]

theorem mem_mapInsert (m : List (String × String)) (k v : String) (p : String × String)
    (h : p ∈ mapInsert m k v) : p = (k, v) ∨ p ∈ m := by
  induction m with
  | nil => simpa [mapInsert] using h
  | cons q rest ih =>
    by_cases hq : q.1 = k
    · rw [mapInsert, if_pos hq] at h
      rcases List.mem_cons.mp h with h1 | h1
      · exact Or.inl h1
      · exact Or.inr (List.mem_cons.mpr (Or.inr h1))
    · rw [mapInsert, if_neg hq] at h
      rcases List.mem_cons.mp h with h1 | h1
      · exact Or.inr (List.mem_cons.mpr (Or.inl h1))
      · rcases ih h1 with h2 | h2
        · exact Or.inl h2
        · exact Or.inr (List.mem_cons.mpr (Or.inr h2))

theorem containsKey_iff (m : List (String × String)) (k : String) :
    containsKey m k = true ↔ k ∈ m.map Prod.fst := by
  induction m with
  | nil => simp [containsKey]
  | cons p rest ih =>
    by_cases hp : p.1 = k
    · simp [containsKey, hp]
    · have h1 : containsKey (p :: rest) k = containsKey rest k := by
        simp [containsKey, hp]
      rw [h1, ih]
      simp only [List.map_cons, List.mem_cons]
      constructor
      · exact fun hc => Or.inr hc
      · intro hc
        rcases hc with hc | hc
        · exact absurd hc.symm hp
        · exact hc

theorem keys_mapInsert (m : List (String × String)) (k v : String) :
    (mapInsert m k v).map Prod.fst =
      if containsKey m k = true then m.map Prod.fst else m.map Prod.fst ++ [k] := by
  induction m with
  | nil => simp [mapInsert, containsKey]
  | cons p rest ih =>
    by_cases hp : p.1 = k
    · simp [mapInsert, containsKey, hp]
    · simp only [mapInsert, if_neg hp, containsKey, List.map_cons, ih]
      split
      · rfl
      · simp

theorem nodup_keys_mapInsert (m : List (String × String)) (k v : String)
    (h : (m.map Prod.fst).Nodup) : ((mapInsert m k v).map Prod.fst).Nodup := by
  rw [keys_mapInsert]
  split
  · exact h
  · rename_i hc
    have hk : k ∉ m.map Prod.fst := fun hk => hc ((containsKey_iff m k).mpr hk)
    simp [List.nodup_append, h, hk]

theorem lookupKey_pureManifest (env : Env) (b d : String) :
    ∀ (files : List String) (m0 : List (String × String)) (f : String),
      lookupKey (pureManifest env b d files m0) f
        = if f ∈ files then some (urlOf env b d f) else lookupKey m0 f := by
  intro files
  induction files with
  | nil => intro m0 f; simp [pureManifest]
  | cons g gs ih =>
    intro m0 f
    have hstep : pureManifest env b d (g :: gs) m0
        = pureManifest env b d gs (mapInsert m0 g (urlOf env b d g)) := rfl
    rw [hstep, ih]
    by_cases hf : f ∈ gs
    · simp [hf]
    · by_cases hg : f = g
      · subst hg
        simp [hf, lookupKey_mapInsert_self]
      · simp [hf, hg, lookupKey_mapInsert_other _ _ _ _ hg]

theorem mem_pureManifest (env : Env) (b d : String) :
    ∀ (files : List String) (m0 : List (String × String)) (p : String × String),
      p ∈ pureManifest env b d files m0 → p.1 ∈ files ∨ p ∈ m0 := by
  intro files
  induction files with
  | nil => intro m0 p h; exact Or.inr h
  | cons g gs ih =>
    intro m0 p h
    have hstep : pureManifest env b d (g :: gs) m0
        = pureManifest env b d gs (mapInsert m0 g (urlOf env b d g)) := rfl
    rw [hstep] at h
    rcases ih _ p h with h1 | h1
    · exact Or.inl (List.mem_cons.mpr (Or.inr h1))
    · rcases mem_mapInsert _ _ _ _ h1 with h2 | h2
      · exact Or.inl (by simp [h2])
      · exact Or.inr h2

theorem nodup_pureManifest (env : Env) (b d : String) :
    ∀ (files : List String) (m0 : List (String × String)),
      (m0.map Prod.fst).Nodup → ((pureManifest env b d files m0).map Prod.fst).Nodup := by
  intro files
  induction files with
  | nil => intro m0 h; exact h
  | cons g gs ih =>
    intro m0 h
    exact ih _ (nodup_keys_mapInsert _ _ _ h)

theorem string_eq_of_data {a b : String} (h : a.data = b.data) : a = b :=
  congrArg String.mk h

theorem indexOfSubstr_decomp :
    ∀ (s pat : List Char) (i : Nat), indexOfSubstr s pat = some i →
      ∃ pre post, s = pre ++ pat ++ post ∧ pre.length = i := by
  intro s
  induction s with
  | nil =>
    intro pat i h
    rw [indexOfSubstr] at h
    by_cases hp : pat.isPrefixOf [] = true
    · rw [if_pos hp] at h
      obtain ⟨t, ht⟩ := List.isPrefixOf_iff_prefix.mp hp
      exact ⟨[], t, by simpa using ht.symm, Option.some_inj.mp h⟩
    · rw [if_neg hp] at h
      simp at h
  | cons c rest ih =>
    intro pat i h
    rw [indexOfSubstr] at h
    by_cases hp : pat.isPrefixOf (c :: rest) = true
    · rw [if_pos hp] at h
      obtain ⟨t, ht⟩ := List.isPrefixOf_iff_prefix.mp hp
      exact ⟨[], t, by simpa using ht.symm, Option.some_inj.mp h⟩
    · rw [if_neg hp] at h
      obtain ⟨j, hj, hij⟩ := Option.map_eq_some'.mp h
      obtain ⟨pre, post, hdec, hlen⟩ := ih pat j hj
      refine ⟨c :: pre, post, by simp [hdec], ?_⟩
      simp [hlen, hij]

/-- Claim C4: the existence check returns true exactly when the remote HEAD
request succeeds, and every error is converted into false (absence) and never
propagated. -/
theorem C4_existence_oracle (remote : Remote) (bucket key : String) :
    (HasPreviousUpload remote bucket key = true ↔ remote.headErr bucket key = none)
    ∧ (∀ e, remote.headErr bucket key = some e →
        HasPreviousUpload remote bucket key = false) := by
  constructor
  · cases h : remote.headErr bucket key <;> simp [HasPreviousUpload, h]
  · intro e he
    simp [HasPreviousUpload, he]

/-- Witness for C4 at a concrete remote whose HEAD requests fail. -/
theorem C4_existence_oracle_witness :
    HasPreviousUpload remoteNoneExists "b" "k" = false :=
  (C4_existence_oracle remoteNoneExists "b" "k").2 "NotFound" rfl

/-- Claim C8: a format selector other than json or csv yields an empty result
and no error. -/
theorem C8_unknown_format (fileVersions : List (String × String)) (format : String)
    (h1 : format ≠ "json") (h2 : format ≠ "csv") :
    FormatManifest fileVersions format = (none, none) := by
  rw [FormatManifest, if_neg h1, if_neg h2]

/-- Witness for C8 at the selector xml. -/
theorem C8_unknown_format_witness :
    FormatManifest [("app.js", "https://static.buffer.com/v1/app.js")] "xml"
      = (none, none) :=
  C8_unknown_format _ "xml" (by decide) (by decide)

/-- Claim C1 (code evaluation): for the versionable file app.js with content
[1, 2, 3], absent remotely and with the run not dry, the single transfer
handed to the SDK carries an empty body: the fingerprinting pass left the
shared handle at end of file, so the upload reads zero bytes instead of the
file content. -/
theorem C1_zero_byte_upload :
    fsW.contents "app.js" = some [1, 2, 3]
    ∧ (VersionAndUploadFiles envW remoteNoneExists "b" "d" ["app.js"] false).uploads
        = [{ bucket := "b", key := "d/app.aabb.js", body := [],
             contentType := "application/javascript" }]
    ∧ (VersionAndUploadFiles envW remoteNoneExists "b" "d" ["app.js"] false).err = none := by
  refine ⟨rfl, ?_, rfl⟩
  rfl

/-- Counterexample to C2 as stated: when the extension substring occurs
before the final extension, the fingerprint is spliced at the first
occurrence (here inside a directory component), not before the final
extension. -/
theorem C2_counterexample :
    GetVersionedFilename "dir.js/app.js" "v" = "dir.v.js/app.js"
    ∧ GetVersionedFilename "dir.js/app.js" "v" ≠ "dir.js/app.v.js" := by
  constructor
  · decide
  · decide

/-- Counterexample to C6 as stated: a filename without extension gets the
fingerprint segment prepended, not appended. -/
theorem C6_counterexample :
    GetVersionedFilename "README" "abc" = ".abcREADME"
    ∧ GetVersionedFilename "README" "abc" ≠ "README.abc" := by
  constructor
  · decide
  · decide

/-- Claim C6 (amended): for a filename with no extension the versioner
prepends the fingerprint segment, yielding "." ++ fingerprint ++ name. -/
theorem C6_amended (filename version : String) (h : filepathExt filename = "") :
    GetVersionedFilename filename version = "." ++ version ++ filename := by
  simp only [GetVersionedFilename, stringsReplaceOnce, h]
  apply string_eq_of_data
  simp [data_append]

/-- Witness for C6 (amended) at a concrete extensionless filename. -/
theorem C6_amended_witness :
    GetVersionedFilename "Makefile" "ff00" = "." ++ "ff00" ++ "Makefile" :=
  C6_amended "Makefile" "ff00" (by decide)

/-- Counterexample to C7 as stated: with an empty directory, the run with a
non-default bucket proceeds without any configuration error, while the run
with the default bucket is the one that terminates with the configuration
error. -/
theorem C7_counterexample :
    (mainRun envW remoteAllExist globFnW
      { s3Bucket := "assets.example.com", directory := "", filesArg := "",
        outputFilename := "o.json", format := "json", dryRun := false }).fatalError = none
    ∧ (mainRun envW remoteAllExist globFnW
      { s3Bucket := "static.buffer.com", directory := "", filesArg := "",
        outputFilename := "o.json", format := "json", dryRun := false }).fatalError
      = some "To use the default bucket you need to specify an upload directory (-dir)" := by
  exact ⟨rfl, rfl⟩

/-- Claim C7 (amended): the directory is required exactly when the target
bucket is the default bucket: an empty directory with the default bucket is
a fatal configuration error, and any non-default bucket skips the
configuration check entirely. -/
theorem C7_amended (env : Env) (remote : Remote)
    (globFn : String → Except String (List String)) (args : MainArgs) :
    (args.directory = "" → args.s3Bucket = defaultS3Bucket →
      mainRun env remote globFn args =
        { fatalError :=
            some "To use the default bucket you need to specify an upload directory (-dir)",
          run := none, manifestWrite := none })
    ∧ (args.s3Bucket ≠ defaultS3Bucket →
      mainRun env remote globFn args = mainRunBody env remote globFn args) := by
  constructor
  · intro h1 h2
    rw [mainRun, if_pos ⟨h1, h2⟩]
  · intro h
    rw [mainRun, if_neg (fun hc => h hc.2)]

/-- Witness for C7 (amended): the default bucket with an empty directory is
rejected. -/
theorem C7_amended_witness :
    mainRun envW remoteAllExist globFnW
      { s3Bucket := defaultS3Bucket, directory := "", filesArg := "app.js",
        outputFilename := "out.json", format := "csv", dryRun := false }
    = { fatalError :=
          some "To use the default bucket you need to specify an upload directory (-dir)",
        run := none, manifestWrite := none } :=
  (C7_amended envW remoteAllExist globFnW _).1 rfl rfl

/-- Claim C2 (amended): for a versionable filename the fingerprint is
spliced at the first occurrence of the extension substring; when that first
occurrence is the final extension itself (the common case), the result is
exactly stem ++ "." ++ fingerprint ++ extension.  For any other extension
the orchestrator leaves the key equal to the original filename (joined with
the directory). -/
theorem C2_amended :
    (∀ filename version : String,
      (filepathExt filename = ".js" ∨ filepathExt filename = ".css") →
      indexOfSubstr filename.data (filepathExt filename).data
          = some (filename.data.length - (filepathExt filename).data.length) →
      GetVersionedFilename filename version
        = String.mk (filename.data.take
            (filename.data.length - (filepathExt filename).data.length))
          ++ "." ++ version ++ filepathExt filename)
    ∧ (∀ (env : Env) (remote : Remote) (bucket directory : String) (dryRun : Bool)
        (acc : RunResult) (filename : String) (bs : Bytes),
        env.fs.contents filename = some bs →
        ¬(filepathExt filename = ".js" ∨ filepathExt filename = ".css") →
        (processFile env remote bucket directory dryRun acc filename).headChecks
          = acc.headChecks ++ [(bucket, pathJoin [directory, filename])]) := by
  constructor
  · intro filename version hv hocc
    have hne : filepathExt filename ≠ "" := by
      rcases hv with hv | hv <;> rw [hv] <;> decide
    obtain ⟨pre, post, hdec, hlen⟩ := indexOfSubstr_decomp _ _ _ hocc
    have hlental : filename.data.length
        = pre.length + ((filepathExt filename).data.length + post.length) := by
      rw [hdec]; simp
    have hpost : post = [] := by
      apply List.length_eq_zero.mp
      omega
    subst hpost
    have htake : filename.data.take
        (filename.data.length - (filepathExt filename).data.length) = pre := by
      rw [← hlen, hdec, List.append_nil, List.take_left]
    have hdrop : filename.data.drop
        ((filename.data.length - (filepathExt filename).data.length)
          + (filepathExt filename).data.length) = [] := by
      rw [← hlen, hdec, List.append_nil, ← List.length_append, List.drop_length]
    simp only [GetVersionedFilename, stringsReplaceOnce, if_neg hne, hocc]
    rw [htake, hdrop]
    apply string_eq_of_data
    simp [data_append]
  · intro env remote bucket directory dryRun acc filename bs hbs hv
    have hk : bucketKeyOf env directory filename = pathJoin [directory, filename] := by
      simp [bucketKeyOf, uploadKeyOf, hbs, hv]
    rw [processFile_some env remote bucket directory dryRun acc filename bs hbs]
    split
    · split <;> simp [hk]
    · simp [hk]

/-- Witness for C2 (amended) at app.js, whose extension occurs only at the
end. -/
theorem C2_amended_witness :
    GetVersionedFilename "app.js" "deadbeef" = "app.deadbeef.js" := by
  have h := C2_amended.1 "app.js" "deadbeef" (Or.inl (by decide)) (by decide)
  rw [h]
  decide

/-- Claim C3: when the oracle reports that a file's composed key exists, the
file's outcome is Skipped and no transfer happens; and after a successful
run, a second run against an oracle answering true for every key yields an
identical manifest, zero transfers and only Skipped outcomes. -/
theorem C3_skip_idempotence (env : Env) (remote : Remote) (bucket directory : String)
    (filenames : List String) (dryRun dryRun2 : Bool) :
    (∀ (acc : RunResult) (filename : String) (bs : Bytes),
      env.fs.contents filename = some bs →
      remote.headErr bucket (bucketKeyOf env directory filename) = none →
      (processFile env remote bucket directory dryRun acc filename).outcomes
          = acc.outcomes ++ [(filename, Outcome.Skipped)]
        ∧ (processFile env remote bucket directory dryRun acc filename).uploads
          = acc.uploads)
    ∧ ((VersionAndUploadFiles env remote bucket directory filenames dryRun).err = none →
      ∀ remoteAll : Remote, (∀ k, remoteAll.headErr bucket k = none) →
        (VersionAndUploadFiles env remoteAll bucket directory filenames dryRun2).fileVersions
            = (VersionAndUploadFiles env remote bucket directory filenames dryRun).fileVersions
          ∧ (VersionAndUploadFiles env remoteAll bucket directory filenames dryRun2).uploads
            = []
          ∧ ∀ p ∈ (VersionAndUploadFiles env remoteAll bucket directory
              filenames dryRun2).outcomes, p.2 = Outcome.Skipped) := by
  constructor
  · intro acc filename bs hbs hhead
    rw [processFile_skip env remote bucket directory dryRun acc filename bs hbs hhead]
    exact ⟨rfl, rfl⟩
  · intro h remoteAll hall
    have h' : (filenames.foldl (runStep env remote bucket directory dryRun) initRun).err
        = none := h
    have hopen : ∀ f ∈ filenames, ∃ bs, env.fs.contents f = some bs :=
      runFold_openable env remote bucket directory dryRun filenames initRun h'
    obtain ⟨e2, u2, o2⟩ :=
      runFold_allexist env remoteAll bucket directory dryRun2 hall filenames initRun rfl hopen
    refine ⟨?_, u2, ?_⟩
    · have hfv1 : (filenames.foldl (runStep env remote bucket directory dryRun)
          initRun).fileVersions = pureManifest env bucket directory filenames [] :=
        runFold_fileVersions env remote bucket directory dryRun filenames initRun h'
      have hfv2 : (filenames.foldl (runStep env remoteAll bucket directory dryRun2)
          initRun).fileVersions = pureManifest env bucket directory filenames [] :=
        runFold_fileVersions env remoteAll bucket directory dryRun2 filenames initRun e2
      exact hfv2.trans hfv1.symm
    · intro p hp
      have hp' : p ∈ ([] : List (String × Outcome))
          ++ filenames.map (fun f => (f, Outcome.Skipped)) := o2 ▸ hp
      rw [List.nil_append] at hp'
      obtain ⟨f, _, hf⟩ := List.mem_map.mp hp'
      rw [← hf]

/-- Witness for C3: a successful first run over app.js against an empty
remote, then a second run against a remote on which every key exists:
no transfers, identical manifest. -/
theorem C3_skip_idempotence_witness :
    (VersionAndUploadFiles envW remoteAllExist "b" "d" ["app.js"] false).uploads = []
    ∧ (VersionAndUploadFiles envW remoteAllExist "b" "d" ["app.js"] false).fileVersions
        = (VersionAndUploadFiles envW remoteNoneExists "b" "d" ["app.js"] false).fileVersions := by
  have h := (C3_skip_idempotence envW remoteNoneExists "b" "d" ["app.js"] false false).2
    rfl remoteAllExist (fun _ => rfl)
  exact ⟨h.2.1, h.1⟩

/-- Claim C5: on a successful run the manifest has exactly the input
filenames as keys, each mapped to its resolved public URL, regardless of
outcome or dry-run mode, and the keys are unique. -/
theorem C5_manifest (env : Env) (remote : Remote) (bucket directory : String)
    (filenames : List String) (dryRun : Bool)
    (h : (VersionAndUploadFiles env remote bucket directory filenames dryRun).err = none) :
    (∀ f ∈ filenames,
      lookupKey (VersionAndUploadFiles env remote bucket directory
          filenames dryRun).fileVersions f = some (urlOf env bucket directory f))
    ∧ (∀ p ∈ (VersionAndUploadFiles env remote bucket directory
        filenames dryRun).fileVersions, p.1 ∈ filenames)
    ∧ ((VersionAndUploadFiles env remote bucket directory
        filenames dryRun).fileVersions.map Prod.fst).Nodup := by
  have h' : (filenames.foldl (runStep env remote bucket directory dryRun) initRun).err
      = none := h
  have hfv : (filenames.foldl (runStep env remote bucket directory dryRun)
      initRun).fileVersions = pureManifest env bucket directory filenames [] :=
    runFold_fileVersions env remote bucket directory dryRun filenames initRun h'
  refine ⟨?_, ?_, ?_⟩
  · intro f hf
    have : lookupKey (pureManifest env bucket directory filenames []) f
        = some (urlOf env bucket directory f) := by
      rw [lookupKey_pureManifest env bucket directory filenames [] f, if_pos hf]
    exact hfv ▸ this
  · intro p hp
    have hp' : p ∈ pureManifest env bucket directory filenames [] := hfv ▸ hp
    rcases mem_pureManifest env bucket directory filenames [] p hp' with h1 | h1
    · exact h1
    · exact absurd h1 (by simp)
  · have : ((pureManifest env bucket directory filenames []).map Prod.fst).Nodup :=
      nodup_pureManifest env bucket directory filenames [] (by simp)
    exact hfv ▸ this

/-- Witness for C5: a two-file run (one versionable, one not) whose manifest
maps app.js to its versioned URL. -/
theorem C5_manifest_witness :
    lookupKey (VersionAndUploadFiles envW remoteAllExist "b" "d"
        ["app.js", "logo.png"] false).fileVersions "app.js"
      = some "https://s3.amazonaws.com/b/d/app.aabb.js" := by
  have h := (C5_manifest envW remoteAllExist "b" "d" ["app.js", "logo.png"] false rfl).1
    "app.js" (by decide)
  exact h.trans (by decide)

/-- Claim C9: in dry-run mode no manifest file is written and no transfer is
ever handed to the SDK, while on a successful run the existence check is
still performed for every file (with its composed key) and an outcome line
is still printed for each. -/
theorem C9_dry_run (env : Env) (remote : Remote)
    (globFn : String → Except String (List String)) (args : MainArgs)
    (hdry : args.dryRun = true) :
    (mainRun env remote globFn args).manifestWrite = none
    ∧ ∀ (bucket directory : String) (filenames : List String),
        (VersionAndUploadFiles env remote bucket directory filenames true).uploads = []
        ∧ ((VersionAndUploadFiles env remote bucket directory filenames true).err = none →
            (VersionAndUploadFiles env remote bucket directory filenames true).headChecks
                = filenames.map (fun f => (bucket, bucketKeyOf env directory f))
              ∧ (VersionAndUploadFiles env remote bucket directory
                  filenames true).outcomes.map Prod.fst = filenames) := by
  constructor
  · rw [mainRun]
    split
    · rfl
    · rw [mainRunBody]
      split
      · rfl
      · rw [hdry]
        rw [mainFinish]
        split
        · rfl
        · split
          · rfl
          · rfl
  · intro bucket directory filenames
    constructor
    · exact runFold_dry_uploads env remote bucket directory filenames initRun
    · intro herr
      have herr' : (filenames.foldl (runStep env remote bucket directory true) initRun).err
          = none := herr
      have hch := runFold_checks env remote bucket directory true filenames initRun herr'
      constructor
      · have h1 := hch.1
        rwa [show initRun.headChecks = [] from rfl, List.nil_append] at h1
      · have h2 := hch.2
        rwa [show initRun.outcomes.map Prod.fst = [] from rfl, List.nil_append] at h2

/-- Witness for C9: a dry run over app.js writes no manifest file and hands
nothing to the SDK. -/
theorem C9_dry_run_witness :
    (mainRun envW remoteNoneExists globFnW
      { s3Bucket := "b", directory := "d", filesArg := "app.js",
        outputFilename := "out.json", format := "json", dryRun := true }).manifestWrite = none
    ∧ (VersionAndUploadFiles envW remoteNoneExists "b" "d" ["app.js"] true).uploads = [] := by
  have h := C9_dry_run envW remoteNoneExists globFnW
    { s3Bucket := "b", directory := "d", filesArg := "app.js",
      outputFilename := "out.json", format := "json", dryRun := true } rfl
  exact ⟨h.1, (h.2 "b" "d" ["app.js"]).1⟩

/-- Claim C10: the empty files argument is treated as the single glob
pattern "", which matches no files and raises no error, so the run
processes zero files and completes successfully with an empty manifest. -/
theorem C10_empty_glob (env : Env) (remote : Remote)
    (globFn : String → Except String (List String)) (args : MainArgs)
    (hg : globFn "" = Except.ok [])
    (hfiles : args.filesArg = "")
    (hconf : ¬(args.directory = "" ∧ args.s3Bucket = defaultS3Bucket))
    (hfmt : args.format = "json") (hdry : args.dryRun = false) :
    splitString ',' "" = [""]
    ∧ GetFilesFromGlobsList globFn "" = ([], none)
    ∧ (mainRun env remote globFn args).fatalError = none
    ∧ (VersionAndUploadFiles env remote args.s3Bucket args.directory [] false).fileVersions
        = []
    ∧ (mainRun env remote globFn args).manifestWrite
        = some (args.outputFilename, "\x7b\x7d") := by
  have hget : GetFilesFromGlobsList globFn "" = ([], none) := by
    have hsplit : splitString ',' "" = [""] := rfl
    rw [GetFilesFromGlobsList, hsplit]
    simp [hg]
  have hmain : mainRun env remote globFn args = mainRunBody env remote globFn args := by
    rw [mainRun, if_neg hconf]
  have hbody : mainRunBody env remote globFn args
      = { fatalError := none,
          run := some (VersionAndUploadFiles env remote args.s3Bucket args.directory [] false),
          manifestWrite := some (args.outputFilename, "\x7b\x7d") } := by
    rw [mainRunBody, hfiles, hget, hdry, hfmt]
    rfl
  exact ⟨rfl, hget, by rw [hmain, hbody], rfl, by rw [hmain, hbody]⟩

/-- Witness for C10: omitting the files argument with an explicit directory
completes with the empty JSON manifest. -/
theorem C10_empty_glob_witness :
    (mainRun envW remoteAllExist globFnW
      { s3Bucket := defaultS3Bucket, directory := "v1", filesArg := "",
        outputFilename := "staticAssets.json", format := "json",
        dryRun := false }).manifestWrite
      = some ("staticAssets.json", "\x7b\x7d") := by
  have h := C10_empty_glob envW remoteAllExist globFnW
    { s3Bucket := defaultS3Bucket, directory := "v1", filesArg := "",
      outputFilename := "staticAssets.json", format := "json", dryRun := false }
    rfl rfl (by decide) rfl rfl
  exact h.2.2.2.2
